import Mathlib

/-!
Shallow embedding of the `ELSbot` light-cycles client
(`src/client/client_evaks.cpp`) and verification of its specified
properties: the zigzag move decision rule, the bounded FIFO trail cache,
direction conversions, and the fatal-error behaviour of the run loop.

C++ exceptions are modelled by `Except String`; the external collaborators
(grid occupancy queries and the player list of a received game state) are
abstract fields of `GameState`.  Machine `int` coordinates are modelled by
`Int` (no arithmetic in the program can overflow a 32-bit coordinate in
any reachable game, and the logic is independent of width).
-/

namespace Cycles

/-- `sf::Vector2i`: an integer 2D coordinate. -/
abbrev Pos := Int × Int

/-- Componentwise addition `myPlayer.position + getDirectionVector(...)`. -/
def posAdd (p v : Pos) : Pos := (p.1 + v.1, p.2 + v.2)

/-- `cycles::Direction`.  The four enumerators, plus one value `invalid`
standing for any other bit pattern the underlying C++ enum type can hold
(the `default:` cases in the source show such values are representable). -/
inductive Direction where
  | north
  | south
  | east
  | west
  | invalid
deriving DecidableEq

/-- A `cycles::Player`: the per-player data the bot reads. -/
structure Player where
  name : String
  position : Pos
deriving DecidableEq

/-- A `cycles::GameState` snapshot.  Grid geometry and occupancy are
external collaborators, modelled as abstract boolean queries. -/
structure GameState where
  players : List Player
  isInsideGrid : Pos → Bool
  isCellEmpty : Pos → Bool

/-- `ELSbot::getDirectionVector`: direction to unit offset; throws
`BotException` (modelled by `Except.error`) on any other value. -/
def getDirectionVector (direction : Direction) : Except String Pos :=
  match direction with
  | .north => .ok (0, -1)
  | .south => .ok (0, 1)
  | .east => .ok (1, 0)
  | .west => .ok (-1, 0)
  | .invalid => .error "Invalid direction encountered"

/-- `ELSbot::directionToString`: direction to log string; the `default:`
branch returns the string "UNKNOWN" (it does not throw). -/
def directionToString (dir : Direction) : String :=
  match dir with
  | .north => "NORTH"
  | .south => "SOUTH"
  | .east => "EAST"
  | .west => "WEST"
  | .invalid => "UNKNOWN"

/-- `ELSbot::MAX_TRAIL_SIZE`. -/
def MAX_TRAIL_SIZE : Nat := 5000

/-- The two trail fields of `ELSbot`: `trail` is the
`std::unordered_set` membership set (modelled as a duplicate-free list)
and `trailQueue` the `std::queue` of visited positions in order (front
at the head of the list). -/
structure TrailTracker where
  trail : List Pos
  trailQueue : List Pos
deriving DecidableEq

/-- `std::unordered_set::insert`: a no-op when the element is present. -/
def trailInsert (p : Pos) (s : List Pos) : List Pos :=
  if p ∈ s then s else p :: s

/-- The initial (empty) trail state of a fresh `ELSbot`. -/
def emptyTrail : TrailTracker := ⟨[], []⟩

/-- The representation invariant of the trail pair: the membership set
is duplicate-free, every member is somewhere in the queue, and the queue
holds at most `MAX_TRAIL_SIZE` entries. -/
def TrailInv (t : TrailTracker) : Prop :=
  t.trail.Nodup ∧ (∀ x ∈ t.trail, x ∈ t.trailQueue)
    ∧ t.trailQueue.length ≤ MAX_TRAIL_SIZE

/-- The trail-update steps of `ELSbot::sendMove` (lines 143-151):
insert the new position into the set, push it onto the queue, and if the
queue size now exceeds `MAX_TRAIL_SIZE`, pop the front and erase it from
the set. -/
def record (t : TrailTracker) (newPos : Pos) : TrailTracker :=
  let trail1 := trailInsert newPos t.trail
  let queue1 := t.trailQueue ++ [newPos]
  if MAX_TRAIL_SIZE < queue1.length then
    { trail := trail1.erase queue1.headI, trailQueue := queue1.tail }
  else
    { trail := trail1, trailQueue := queue1 }

/-- The mutable state of an `ELSbot` (the `Connection` collaborator is
not part of the core; received snapshots are passed in explicitly). -/
structure ELSbot where
  name : String
  state : GameState
  myPlayer : Player
  movingDown : Bool
  primaryDirection : Direction
  trail : List Pos
  trailQueue : List Pos

/-- Line 83: `movingDown ? south : north`. -/
def zigzagDirection (b : ELSbot) : Direction :=
  if b.movingDown then .south else .north

/-- The vertical direction that is not the current zigzag direction. -/
def otherVertical (b : ELSbot) : Direction :=
  if b.movingDown then .north else .south

/-- `ELSbot::isValidMove`: destination inside the grid, cell empty, and
not in the bot's own trail set.  A `BotException` from
`getDirectionVector` propagates. -/
def isValidMove (b : ELSbot) (direction : Direction) : Except String Bool :=
  match getDirectionVector direction with
  | .error e => .error e
  | .ok v =>
    let newPos := posAdd b.myPlayer.position v
    if !(b.state.isInsideGrid newPos) then .ok false
    else if !(b.state.isCellEmpty newPos) then .ok false
    else if newPos ∈ b.trail then .ok false
    else .ok true

/-- `ELSbot::decideMove`: try the zigzag vertical, then the primary
direction (toggling `movingDown` when it is taken), then west, north,
south in order; if none is valid fall back to the primary direction.
The `try`/`catch` block rethrows `BotException`, so errors propagate.
Returns the chosen direction together with the updated bot state. -/
def decideMove (b : ELSbot) : Except String (Direction × ELSbot) :=
  let zigzag := zigzagDirection b
  match isValidMove b zigzag with
  | .error e => .error e
  | .ok true => .ok (zigzag, b)
  | .ok false =>
    match isValidMove b b.primaryDirection with
    | .error e => .error e
    | .ok true => .ok (b.primaryDirection, { b with movingDown := !b.movingDown })
    | .ok false =>
      match isValidMove b .west with
      | .error e => .error e
      | .ok true => .ok (Direction.west, b)
      | .ok false =>
        match isValidMove b .north with
        | .error e => .error e
        | .ok true => .ok (Direction.north, b)
        | .ok false =>
          match isValidMove b .south with
          | .error e => .error e
          | .ok true => .ok (Direction.south, b)
          | .ok false => .ok (b.primaryDirection, b)

/-- `ELSbot::updateState` applied to a received snapshot: locate the
first player whose name matches; throw `BotException` when absent. -/
def updateState (b : ELSbot) (gs : GameState) : Except String ELSbot :=
  match gs.players.find? (fun p => p.name == b.name) with
  | some pl => .ok { b with state := gs, myPlayer := pl }
  | none => .error "Player not found in the game state"

/-- `ELSbot::sendMove`: decide a move, send it (the chosen direction is
returned as the observable output), and record the destination position
in the trail. -/
def sendMove (b : ELSbot) : Except String (Direction × ELSbot) :=
  match decideMove b with
  | .error e => .error e
  | .ok (move, b1) =>
    match getDirectionVector move with
    | .error e => .error e
    | .ok v =>
      let newPos := posAdd b1.myPlayer.position v
      let t := record ⟨b1.trail, b1.trailQueue⟩ newPos
      .ok (move, { b1 with trail := t.trail, trailQueue := t.trailQueue })

/-- `ELSbot::run` over a finite list of snapshots (`connection.isActive`
becomes "snapshots remain").  Any exception escaping a tick reaches the
`catch` in `run`, which calls `exit(1)`; normal termination of the loop
lets `main` return 0.  The result is the process exit status. -/
def runBot (b : ELSbot) (snapshots : List GameState) : Nat :=
  match snapshots with
  | [] => 0
  | gs :: rest =>
    match updateState b gs with
    | .error _ => 1
    | .ok b1 =>
      match sendMove b1 with
      | .error _ => 1
      | .ok (_, b2) => runBot b2 rest

/-- The validity test of `isValidMove` as a pure boolean predicate
(meaningful for the four real directions; false on `invalid`).  Spec
4.1: valid iff inside grid, cell empty, and not in the own trail. -/
def validMove (b : ELSbot) (d : Direction) : Bool :=
  match getDirectionVector d with
  | .error _ => false
  | .ok v =>
    let newPos := posAdd b.myPlayer.position v
    b.state.isInsideGrid newPos && b.state.isCellEmpty newPos
      && !(decide (newPos ∈ b.trail))

/-- The candidate order claimed by the spec: zigzag vertical, east,
west, then the remaining vertical. -/
def candidates (b : ELSbot) : List Direction :=
  [zigzagDirection b, .east, .west, otherVertical b]

/-! ### Concrete demo states used by the witnesses -/

/-- A 20×20 grid whose only occupied cell is (5,6) (south of the demo
bot), with one player named "els" at (5,5). -/
def demoGrid : GameState where
  players := [⟨"els", (5, 5)⟩]
  isInsideGrid := fun p =>
    decide (0 ≤ p.1) && decide (p.1 < 20) && decide (0 ≤ p.2) && decide (p.2 < 20)
  isCellEmpty := fun p => !(decide (p = ((5 : Int), (6 : Int))))

/-- A bot at (5,5) on `demoGrid`, moving down, with an empty trail. -/
def demoBot : ELSbot where
  name := "els"
  state := demoGrid
  myPlayer := ⟨"els", (5, 5)⟩
  movingDown := true
  primaryDirection := .east
  trail := []
  trailQueue := []

/-- `demoBot` after the zigzag phase toggles. -/
def demoBotAfter : ELSbot := { demoBot with movingDown := false }

/-- A snapshot that does not contain the demo bot's name. -/
def demoGridAbsent : GameState where
  players := [⟨"rival", (1, 1)⟩]
  isInsideGrid := fun _ => true
  isCellEmpty := fun _ => true

/-- The i-th of the 5001 distinct positions used by the C3 witness. -/
def fifoDemoPos (i : Nat) : Pos := ((i : Int), 0)

/-- The 5001 distinct positions used by the C3 witness. -/
def fifoDemoSeq : List Pos :=
  List.map fifoDemoPos (List.range (MAX_TRAIL_SIZE + 1))

/-- The twice-recorded position of the C10 construction. -/
def dupDemoPos : Pos := ((0 : Int), (0 : Int))

/-- The i-th fresh padding position of the C10 construction. -/
def dupDemoOther (i : Nat) : Pos := ((i : Int) + 1, 0)

/-- 4998 fresh padding positions for the C10 construction. -/
def dupDemoOthers : List Pos :=
  List.map dupDemoOther (List.range (MAX_TRAIL_SIZE - 2))

/-- The 5001st recorded position of the C10 construction. -/
def dupDemoLast : Pos := ((MAX_TRAIL_SIZE : Int) - 1, 0)

/-- Record (0,0) twice, then 4999 fresh positions: the eviction of the
older copy of (0,0) removes it from the set while its newer copy is
still queued. -/
def dupDemoSeq : List Pos :=
  dupDemoPos :: dupDemoPos :: (dupDemoOthers ++ [dupDemoLast])

/-! ### Bridging lemmas for the move decision -/

theorem validTest_ok (b : ELSbot) (q : Pos) :
    (if !(b.state.isInsideGrid q) then (Except.ok false : Except String Bool)
     else if !(b.state.isCellEmpty q) then .ok false
     else if q ∈ b.trail then .ok false
     else .ok true)
    = .ok (b.state.isInsideGrid q && b.state.isCellEmpty q
        && !(decide (q ∈ b.trail))) := by
  by_cases h1 : b.state.isInsideGrid q <;> by_cases h2 : b.state.isCellEmpty q <;>
    by_cases h3 : q ∈ b.trail <;> simp [h1, h2, h3]

theorem isValidMove_eq_ok (b : ELSbot) (d : Direction)
    (hd : d ≠ Direction.invalid) :
    isValidMove b d = .ok (validMove b d) := by
  cases d <;>
    simp only [isValidMove, validMove, getDirectionVector, validTest_ok] <;>
    simp at hd ⊢

theorem zigzag_ne_invalid (b : ELSbot) : zigzagDirection b ≠ Direction.invalid := by
  unfold zigzagDirection; split <;> simp

/-- `decideMove` as a pure cascade over the validity predicate, assuming
the primary direction field holds its only reachable value (east). -/
theorem decideMove_eq (b : ELSbot) (hp : b.primaryDirection = Direction.east) :
    decideMove b =
      (if validMove b (zigzagDirection b) then .ok (zigzagDirection b, b)
       else if validMove b Direction.east then
         .ok (Direction.east, { b with movingDown := !b.movingDown })
       else if validMove b Direction.west then .ok (Direction.west, b)
       else if validMove b Direction.north then .ok (Direction.north, b)
       else if validMove b Direction.south then .ok (Direction.south, b)
       else .ok (Direction.east, b)) := by
  simp only [decideMove, hp, isValidMove_eq_ok b _ (zigzag_ne_invalid b),
    isValidMove_eq_ok b Direction.east (by simp),
    isValidMove_eq_ok b Direction.west (by simp),
    isValidMove_eq_ok b Direction.north (by simp),
    isValidMove_eq_ok b Direction.south (by simp)]
  by_cases h1 : validMove b (zigzagDirection b) <;>
    by_cases h2 : validMove b Direction.east <;>
    by_cases h3 : validMove b Direction.west <;>
    by_cases h4 : validMove b Direction.north <;>
    by_cases h5 : validMove b Direction.south <;>
    simp [h1, h2, h3, h4, h5]

/-- Whatever `decideMove` returns, the output state is either the input
state or the input state with `movingDown` negated. -/
theorem decideMove_cases (b : ELSbot) (d : Direction) (b2 : ELSbot)
    (h : decideMove b = .ok (d, b2)) :
    b2 = b ∨ b2 = { b with movingDown := !b.movingDown } := by
  simp only [decideMove] at h
  rw [isValidMove_eq_ok b _ (zigzag_ne_invalid b)] at h
  by_cases hz : validMove b (zigzagDirection b)
  · simp [hz] at h
    exact Or.inl h.2.symm
  · rw [Bool.not_eq_true] at hz
    simp only [hz] at h
    cases hp : isValidMove b b.primaryDirection with
    | error e =>
      rw [hp] at h
      simp at h
    | ok v =>
      rw [hp] at h
      cases v
      · rw [isValidMove_eq_ok b Direction.west (by simp)] at h
        by_cases hw : validMove b Direction.west
        · simp [hw] at h
          exact Or.inl h.2.symm
        · rw [Bool.not_eq_true] at hw
          simp only [hw] at h
          rw [isValidMove_eq_ok b Direction.north (by simp)] at h
          by_cases hn : validMove b Direction.north
          · simp [hn] at h
            exact Or.inl h.2.symm
          · rw [Bool.not_eq_true] at hn
            simp only [hn] at h
            rw [isValidMove_eq_ok b Direction.south (by simp)] at h
            by_cases hs : validMove b Direction.south
            · simp [hs] at h
              exact Or.inl h.2.symm
            · rw [Bool.not_eq_true] at hs
              simp only [hs] at h
              simp at h
              exact Or.inl h.2.symm
      · simp at h
        exact Or.inr h.2.symm

/-! ### Claims about the move decision -/

/-- C1: `decideMove` returns the FIRST candidate in the fixed order
[zigzag vertical, east, west, remaining vertical] whose destination
passes the validity test (in-bounds, unoccupied, not in the own trail),
and the primary direction east when none passes.  In particular the
returned direction passes the test whenever any candidate does, and it
is east when all four fail. -/
theorem decideMove_first_valid_or_east (b : ELSbot) (d : Direction) (b2 : ELSbot)
    (hp : b.primaryDirection = Direction.east)
    (h : decideMove b = .ok (d, b2)) :
    (d = (match (candidates b).find? (fun c => validMove b c) with
          | some c => c
          | none => Direction.east))
    ∧ ((∃ c ∈ candidates b, validMove b c = true) → validMove b d = true)
    ∧ ((∀ c ∈ candidates b, validMove b c = false) → d = Direction.east) := by
  rw [decideMove_eq b hp] at h
  cases hm : b.movingDown <;>
    by_cases h1 : validMove b Direction.south <;>
    by_cases h2 : validMove b Direction.east <;>
    by_cases h3 : validMove b Direction.west <;>
    by_cases h4 : validMove b Direction.north <;>
    simp_all [zigzagDirection, otherVertical, candidates, List.find?]

/-- Witness for C1 at the concrete demo state. -/
theorem decideMove_first_valid_or_east_witness :
    (Direction.east =
      (match (candidates demoBot).find? (fun c => validMove demoBot c) with
       | some c => c
       | none => Direction.east))
    ∧ ((∃ c ∈ candidates demoBot, validMove demoBot c = true) →
        validMove demoBot Direction.east = true)
    ∧ ((∀ c ∈ candidates demoBot, validMove demoBot c = false) →
        Direction.east = Direction.east) :=
  decideMove_first_valid_or_east demoBot Direction.east demoBotAfter rfl rfl

/-- C2: the zigzag phase flag is toggled exactly when the zigzag
vertical is invalid and east is valid (east chosen as a valid
candidate); in every other successful case — including the
no-valid-move fallback to east — it is unchanged. -/
theorem decideMove_toggle_iff (b : ELSbot) (d : Direction) (b2 : ELSbot)
    (hp : b.primaryDirection = Direction.east)
    (h : decideMove b = .ok (d, b2)) :
    b2.movingDown =
      (if validMove b (zigzagDirection b) = false ∧ validMove b Direction.east = true
       then !b.movingDown else b.movingDown) := by
  rw [decideMove_eq b hp] at h
  by_cases h1 : validMove b (zigzagDirection b) <;>
    by_cases h2 : validMove b Direction.east <;>
    by_cases h3 : validMove b Direction.west <;>
    by_cases h4 : validMove b Direction.north <;>
    by_cases h5 : validMove b Direction.south <;>
    simp only [h1, h2, h3, h4, h5] at h <;>
    simp only [if_true, if_false, Bool.false_eq_true, if_neg, Except.ok.injEq,
      Prod.mk.injEq, reduceIte] at h <;>
    (obtain ⟨hd, hb⟩ := h) <;> subst hb <;> simp [h1, h2]

/-- Witness for C2: on the demo state south is blocked and east is open,
so the phase flips from `true` to `false`. -/
theorem decideMove_toggle_iff_witness :
    demoBotAfter.movingDown =
      (if validMove demoBot (zigzagDirection demoBot) = false
          ∧ validMove demoBot Direction.east = true
       then !demoBot.movingDown else demoBot.movingDown) :=
  decideMove_toggle_iff demoBot Direction.east demoBotAfter rfl rfl

/-- C4: the direction returned by `decideMove` is the first element of
the ordered candidate list [zigzag vertical, east, west, remaining
vertical] that passes the validity test, east when none does.  (The
source's loop re-tests the already-failed zigzag vertical, which cannot
change the outcome since the test is pure.) -/
theorem decideMove_candidate_order (b : ELSbot) (d : Direction) (b2 : ELSbot)
    (hp : b.primaryDirection = Direction.east)
    (h : decideMove b = .ok (d, b2)) :
    d = (match (candidates b).find? (fun c => validMove b c) with
         | some c => c
         | none => Direction.east) := by
  rw [decideMove_eq b hp] at h
  cases hm : b.movingDown <;>
    by_cases h1 : validMove b Direction.south <;>
    by_cases h2 : validMove b Direction.east <;>
    by_cases h3 : validMove b Direction.west <;>
    by_cases h4 : validMove b Direction.north <;>
    simp_all [zigzagDirection, otherVertical, candidates, List.find?]

/-- Witness for C4 at the concrete demo state. -/
theorem decideMove_candidate_order_witness :
    Direction.east =
      (match (candidates demoBot).find? (fun c => validMove demoBot c) with
       | some c => c
       | none => Direction.east) :=
  decideMove_candidate_order demoBot Direction.east demoBotAfter rfl rfl

/-- C8: `decideMove` changes no bot-state field other than (possibly)
`movingDown`: name, game state, player, primary direction, trail set and
trail queue are all preserved. -/
theorem decideMove_frame (b : ELSbot) (d : Direction) (b2 : ELSbot)
    (h : decideMove b = .ok (d, b2)) :
    b2.name = b.name ∧ b2.state = b.state ∧ b2.myPlayer = b.myPlayer
    ∧ b2.primaryDirection = b.primaryDirection
    ∧ b2.trail = b.trail ∧ b2.trailQueue = b.trailQueue := by
  rcases decideMove_cases b d b2 h with hb | hb <;> subst hb <;> simp

/-- Witness for C8 at the concrete demo state. -/
theorem decideMove_frame_witness :
    demoBotAfter.name = demoBot.name ∧ demoBotAfter.state = demoBot.state
    ∧ demoBotAfter.myPlayer = demoBot.myPlayer
    ∧ demoBotAfter.primaryDirection = demoBot.primaryDirection
    ∧ demoBotAfter.trail = demoBot.trail
    ∧ demoBotAfter.trailQueue = demoBot.trailQueue :=
  decideMove_frame demoBot Direction.east demoBotAfter rfl

/-! ### Direction conversions, fatal errors, and the run loop -/

/-- C6 counterexample: on a direction value outside the four
enumerators, `directionToString` does not fail fast — its `default:`
branch substitutes the silent default string "UNKNOWN". -/
theorem directionToString_default_counterexample :
    directionToString Direction.invalid = "UNKNOWN" := rfl

/-- C6 (amended): on a direction value outside the four enumerators the
vector conversion fails fast (throws `BotException`), but the string
conversion substitutes the default "UNKNOWN" instead of failing. -/
theorem conversion_failfast_amended :
    getDirectionVector Direction.invalid = .error "Invalid direction encountered"
    ∧ directionToString Direction.invalid = "UNKNOWN" := ⟨rfl, rfl⟩

/-- C7: when the bot's name appears in none of the players of the
received snapshot, `updateState` throws, and the run loop terminates at
once with exit status 1 instead of continuing with further ticks. -/
theorem updateState_absent_fatal (b : ELSbot) (gs : GameState)
    (rest : List GameState) (h : ∀ p ∈ gs.players, p.name ≠ b.name) :
    (∃ e, updateState b gs = .error e) ∧ runBot b (gs :: rest) = 1 := by
  have hf : gs.players.find? (fun p => p.name == b.name) = none := by
    rw [List.find?_eq_none]
    intro p hp
    simp [h p hp]
  refine ⟨⟨"Player not found in the game state", ?_⟩, ?_⟩ <;>
    simp [updateState, runBot, hf]

/-- Witness for C7 at the concrete demo state. -/
theorem updateState_absent_fatal_witness :
    (∃ e, updateState demoBot demoGridAbsent = .error e)
    ∧ runBot demoBot [demoGridAbsent] = 1 :=
  updateState_absent_fatal demoBot demoGridAbsent [] (by
    intro p hp
    simp only [demoGridAbsent, List.mem_singleton] at hp
    subst hp
    decide)

/-- As long as the primary-direction field holds a real direction (as it
always does: it is initialised to east and never written), `decideMove`
succeeds and returns a real direction. -/
theorem decideMove_total (b : ELSbot) (hp : b.primaryDirection ≠ Direction.invalid) :
    ∃ d b1, decideMove b = .ok (d, b1) ∧ d ≠ Direction.invalid := by
  simp only [decideMove, isValidMove_eq_ok b _ (zigzag_ne_invalid b),
    isValidMove_eq_ok b b.primaryDirection hp,
    isValidMove_eq_ok b Direction.west (by simp),
    isValidMove_eq_ok b Direction.north (by simp),
    isValidMove_eq_ok b Direction.south (by simp)]
  by_cases h1 : validMove b (zigzagDirection b) <;>
    by_cases h2 : validMove b b.primaryDirection <;>
    by_cases h3 : validMove b Direction.west <;>
    by_cases h4 : validMove b Direction.north <;>
    by_cases h5 : validMove b Direction.south <;>
    simp [h1, h2, h3, h4, h5, hp, zigzag_ne_invalid]

/-- C9: the invalid-direction error branch of `getDirectionVector` is
unreachable from `decideMove` and `sendMove`: deciding succeeds with one
of the four real directions, converting that direction succeeds, and
recording the move (which converts the returned direction again)
succeeds. -/
theorem invalid_branch_unreachable (b : ELSbot)
    (hp : b.primaryDirection ≠ Direction.invalid) :
    ∃ d b1 v b2, decideMove b = .ok (d, b1) ∧ d ≠ Direction.invalid
      ∧ getDirectionVector d = .ok v ∧ sendMove b = .ok (d, b2) := by
  obtain ⟨d, b1, hd, hne⟩ := decideMove_total b hp
  obtain ⟨v, hv⟩ : ∃ v, getDirectionVector d = .ok v := by
    cases d <;> simp [getDirectionVector] at hne ⊢
  have hs : sendMove b =
      .ok (d, { b1 with
        trail := (record ⟨b1.trail, b1.trailQueue⟩
          (posAdd b1.myPlayer.position v)).trail,
        trailQueue := (record ⟨b1.trail, b1.trailQueue⟩
          (posAdd b1.myPlayer.position v)).trailQueue }) := by
    simp [sendMove, hd, hv]
  exact ⟨d, b1, v, _, hd, hne, hv, hs⟩

/-- Witness for C9 at the concrete demo state. -/
theorem invalid_branch_unreachable_witness :
    ∃ d b1 v b2, decideMove demoBot = .ok (d, b1) ∧ d ≠ Direction.invalid
      ∧ getDirectionVector d = .ok v ∧ sendMove demoBot = .ok (d, b2) :=
  invalid_branch_unreachable demoBot (by decide)

/-! ### The bounded FIFO trail -/

theorem record_of_le (t : TrailTracker) (p : Pos)
    (h : t.trailQueue.length + 1 ≤ MAX_TRAIL_SIZE) :
    record t p = ⟨trailInsert p t.trail, t.trailQueue ++ [p]⟩ := by
  simp only [record, List.length_append, List.length_cons, List.length_nil]
  rw [if_neg (by omega)]

theorem record_of_gt (t : TrailTracker) (p : Pos)
    (h : MAX_TRAIL_SIZE < t.trailQueue.length + 1) :
    record t p = ⟨(trailInsert p t.trail).erase (t.trailQueue ++ [p]).headI,
      (t.trailQueue ++ [p]).tail⟩ := by
  simp only [record, List.length_append, List.length_cons, List.length_nil]
  rw [if_pos (by omega)]

theorem trailInsert_nodup (p : Pos) (s : List Pos) (h : s.Nodup) :
    (trailInsert p s).Nodup := by
  unfold trailInsert
  split
  · exact h
  · next hmem => simp [List.nodup_cons, hmem, h]

theorem trailInsert_mem (x p : Pos) (s : List Pos) :
    x ∈ trailInsert p s ↔ x = p ∨ x ∈ s := by
  unfold trailInsert
  by_cases hmem : p ∈ s
  · rw [if_pos hmem]
    constructor
    · exact Or.inr
    · rintro (rfl | hx)
      · exact hmem
      · exact hx
  · rw [if_neg hmem]
    exact List.mem_cons

theorem record_inv (t : TrailTracker) (p : Pos) (h : TrailInv t) :
    TrailInv (record t p) := by
  obtain ⟨hnd, hsub, hlen⟩ := h
  have hnd1 : (trailInsert p t.trail).Nodup := trailInsert_nodup p t.trail hnd
  by_cases hc : MAX_TRAIL_SIZE < t.trailQueue.length + 1
  · rw [record_of_gt t p hc]
    refine ⟨hnd1.erase _, ?_, ?_⟩
    · intro x hx
      rw [hnd1.mem_erase_iff] at hx
      obtain ⟨hxne, hxmem⟩ := hx
      rw [trailInsert_mem] at hxmem
      cases hq : t.trailQueue with
      | nil =>
        exfalso
        rw [hq] at hxne
        rcases hxmem with rfl | hx2
        · exact hxne (by simp)
        · have h2 := hsub x hx2
          rw [hq] at h2
          simp at h2
      | cons q0 qrest =>
        rw [hq] at hxne
        rcases hxmem with rfl | hx2
        · simp
        · have h2 := hsub x hx2
          rw [hq] at h2
          simp only [List.cons_append, List.headI_cons] at hxne
          rcases List.mem_cons.mp h2 with rfl | hmem2
          · exact absurd rfl hxne
          · simp [hmem2]
    · simp only [List.length_tail, List.length_append, List.length_cons,
        List.length_nil]
      omega
  · rw [record_of_le t p (by omega)]
    refine ⟨hnd1, ?_, ?_⟩
    · intro x hx
      rw [trailInsert_mem] at hx
      rcases hx with rfl | hx2
      · simp
      · exact List.mem_append_left _ (hsub x hx2)
    · simp only [List.length_append, List.length_cons, List.length_nil]
      omega

theorem emptyTrail_inv : TrailInv emptyTrail := by
  refine ⟨List.nodup_nil, by simp [emptyTrail], ?_⟩
  simp [emptyTrail]

theorem foldl_record_inv (ps : List Pos) (t : TrailTracker) (h : TrailInv t) :
    TrailInv (List.foldl record t ps) := by
  induction ps generalizing t with
  | nil => exact h
  | cons p rest ih => exact ih _ (record_inv t p h)

theorem nodup_subset_length_le (l1 l2 : List Pos) (h : l1.Nodup)
    (hs : ∀ x ∈ l1, x ∈ l2) : l1.length ≤ l2.length := by
  calc l1.length = l1.toFinset.card := (List.toFinset_card_of_nodup h).symm
    _ ≤ l2.toFinset.card := Finset.card_le_card (by
        intro x hx
        simp only [List.mem_toFinset] at hx ⊢
        exact hs x hx)
    _ ≤ l2.length := l2.toFinset_card_le

/-- Folding `record` over distinct fresh positions that fit under the
size bound appends to the queue and prepends to the set, without
eviction. -/
theorem foldl_record_no_evict (os : List Pos) (t : TrailTracker)
    (hlen : t.trailQueue.length + os.length ≤ MAX_TRAIL_SIZE)
    (hnd : os.Nodup) (hdisj : ∀ x ∈ os, x ∉ t.trail) :
    List.foldl record t os = ⟨os.reverse ++ t.trail, t.trailQueue ++ os⟩ := by
  induction os generalizing t with
  | nil => simp
  | cons o rest ih =>
    have hrec : record t o = ⟨trailInsert o t.trail, t.trailQueue ++ [o]⟩ :=
      record_of_le t o (by simp only [List.length_cons] at hlen; omega)
    have hins : trailInsert o t.trail = o :: t.trail := by
      unfold trailInsert
      rw [if_neg (hdisj o (by simp))]
    simp only [List.foldl_cons, hrec, hins]
    rw [ih ⟨o :: t.trail, t.trailQueue ++ [o]⟩
      (by simp only [List.length_append, List.length_cons, List.length_nil] at hlen ⊢; omega)
      (List.Nodup.of_cons hnd)
      (by
        intro x hx
        simp only [List.mem_cons, not_or]
        constructor
        · intro hxo
          subst hxo
          exact (List.nodup_cons.mp hnd).1 hx
        · exact hdisj x (List.mem_cons_of_mem o hx))]
    simp

/-- C3: after any sequence of `record` operations starting from the
empty trail the membership set holds at most `MAX_TRAIL_SIZE` (5000)
positions, and after recording `MAX_TRAIL_SIZE + 1` (5001) distinct
positions the earliest-recorded one is no longer a member. -/
theorem trail_bounded_and_fifo :
    (∀ ps : List Pos,
      (List.foldl record emptyTrail ps).trail.length ≤ MAX_TRAIL_SIZE)
    ∧ (∀ ps : List Pos, ps.Nodup → ps.length = MAX_TRAIL_SIZE + 1 →
      ps.headI ∉ (List.foldl record emptyTrail ps).trail) := by
  constructor
  · intro ps
    obtain ⟨hnd, hsub, hlen⟩ := foldl_record_inv ps emptyTrail emptyTrail_inv
    exact le_trans (nodup_subset_length_le _ _ hnd hsub) hlen
  · intro ps hnd hlen
    have hne : ps ≠ [] := by
      intro h0
      rw [h0] at hlen
      simp [MAX_TRAIL_SIZE] at hlen
    obtain ⟨qs, p, hps⟩ : ∃ qs p, ps = qs ++ [p] :=
      ⟨ps.dropLast, ps.getLast hne, (List.dropLast_append_getLast hne).symm⟩
    subst hps
    rw [List.foldl_append]
    have hqlen : qs.length = MAX_TRAIL_SIZE := by
      simp only [List.length_append, List.length_cons, List.length_nil] at hlen
      omega
    have hqnd : qs.Nodup := (List.nodup_append.mp hnd).1
    have hpq : p ∉ qs := by
      intro hmem
      exact (List.nodup_append.mp hnd).2.2 hmem (by simp)
    have hfold : List.foldl record emptyTrail qs = ⟨qs.reverse, qs⟩ := by
      have h3 := foldl_record_no_evict qs emptyTrail
        (by simp [emptyTrail]; omega) hqnd (by simp [emptyTrail])
      simpa [emptyTrail] using h3
    rw [hfold]
    simp only [List.foldl_cons, List.foldl_nil]
    have hgt : MAX_TRAIL_SIZE <
        (⟨qs.reverse, qs⟩ : TrailTracker).trailQueue.length + 1 := by
      show MAX_TRAIL_SIZE < qs.length + 1
      omega
    rw [record_of_gt _ p hgt]
    have hins : trailInsert p qs.reverse = p :: qs.reverse := by
      unfold trailInsert
      rw [if_neg (by simpa using hpq)]
    have hnd2 : (p :: qs.reverse).Nodup := by
      simp [List.nodup_cons, hpq, hqnd]
    show (qs ++ [p]).headI ∉ (trailInsert p qs.reverse).erase ((qs ++ [p]).headI)
    rw [hins]
    intro hmem
    rw [hnd2.mem_erase_iff] at hmem
    exact hmem.1 rfl

theorem fifoDemoPos_inj : Function.Injective fifoDemoPos := by
  intro i j h
  simpa [fifoDemoPos] using h

/-- Witness for C3 on 5001 concrete distinct positions. -/
theorem trail_bounded_and_fifo_witness :
    fifoDemoSeq.headI ∉ (List.foldl record emptyTrail fifoDemoSeq).trail :=
  trail_bounded_and_fifo.2 fifoDemoSeq
    (by
      unfold fifoDemoSeq
      exact (List.nodup_range _).map fifoDemoPos_inj)
    (by simp only [fifoDemoSeq, List.length_map, List.length_range])

/-- C5: `record` appends the position to the queue and inserts it into
the set; when the queue size then exceeds `MAX_TRAIL_SIZE` the oldest
entry (the old queue front) is removed from both queue and set.  The
queue append happens whether or not the position is already a member
(duplicates are not handled specially). -/
theorem record_spec (t : TrailTracker) (p : Pos) :
    (t.trailQueue.length + 1 ≤ MAX_TRAIL_SIZE →
      (record t p).trailQueue = t.trailQueue ++ [p]
      ∧ (record t p).trail = trailInsert p t.trail)
    ∧ (MAX_TRAIL_SIZE < t.trailQueue.length + 1 →
      (record t p).trailQueue = t.trailQueue.tail ++ [p]
      ∧ (record t p).trail = (trailInsert p t.trail).erase t.trailQueue.headI) := by
  constructor
  · intro hle
    rw [record_of_le t p hle]
    exact ⟨rfl, rfl⟩
  · intro hgt
    have hq : t.trailQueue ≠ [] := by
      intro h0
      rw [h0] at hgt
      simp [MAX_TRAIL_SIZE] at hgt
    rw [record_of_gt t p hgt]
    cases hqq : t.trailQueue with
    | nil => exact absurd hqq hq
    | cons a l => constructor <;> simp

/-- Witness for C5: recording one position into the empty trail. -/
theorem record_spec_witness :
    (record emptyTrail ((0 : Int), (0 : Int))).trailQueue
        = emptyTrail.trailQueue ++ [((0 : Int), (0 : Int))]
    ∧ (record emptyTrail ((0 : Int), (0 : Int))).trail
        = trailInsert ((0 : Int), (0 : Int)) emptyTrail.trail :=
  (record_spec emptyTrail ((0 : Int), (0 : Int))).1 (by decide)

theorem dupDemoOther_inj : Function.Injective dupDemoOther := by
  intro i j h
  simpa [dupDemoOther] using h

/-- C10: the trail membership set always stays a subset of the positions
in the order queue, and the inclusion can be proper: a position recorded
twice loses its membership when its older copy is evicted even though
its newer copy is still in the queue. -/
theorem trail_subset_queue_and_proper :
    (∀ ps : List Pos, ∀ x ∈ (List.foldl record emptyTrail ps).trail,
        x ∈ (List.foldl record emptyTrail ps).trailQueue)
    ∧ (∃ ps : List Pos, ∃ x : Pos,
        x ∈ (List.foldl record emptyTrail ps).trailQueue
        ∧ x ∉ (List.foldl record emptyTrail ps).trail) := by
  have f1 : dupDemoOthers.length = MAX_TRAIL_SIZE - 2 := by
    simp only [dupDemoOthers, List.length_map, List.length_range]
  have f2 : dupDemoOthers.Nodup := by
    unfold dupDemoOthers
    exact (List.nodup_range _).map dupDemoOther_inj
  have f3 : dupDemoPos ∉ dupDemoOthers := by
    intro hmem
    simp only [dupDemoOthers, List.mem_map, List.mem_range] at hmem
    obtain ⟨i, hi, heq⟩ := hmem
    simp only [dupDemoOther, dupDemoPos, Prod.mk.injEq] at heq
    omega
  have f4 : dupDemoLast ∉ dupDemoOthers := by
    intro hmem
    simp only [dupDemoOthers, List.mem_map, List.mem_range] at hmem
    obtain ⟨i, hi, heq⟩ := hmem
    simp only [dupDemoOther, dupDemoLast, Prod.mk.injEq, MAX_TRAIL_SIZE] at heq hi
    omega
  have f5 : dupDemoLast ≠ dupDemoPos := by
    simp only [dupDemoLast, dupDemoPos, MAX_TRAIL_SIZE, ne_eq, Prod.mk.injEq]
    intro h
    omega
  have hlastnotin : dupDemoLast ∉ dupDemoOthers.reverse ++ [dupDemoPos] := by
    intro hmem
    rcases List.mem_append.mp hmem with hm | hm
    · exact f4 (List.mem_reverse.mp hm)
    · exact f5 (List.mem_singleton.mp hm)
  have s3 : List.foldl record ⟨[dupDemoPos], [dupDemoPos, dupDemoPos]⟩ dupDemoOthers
      = ⟨dupDemoOthers.reverse ++ [dupDemoPos],
          [dupDemoPos, dupDemoPos] ++ dupDemoOthers⟩ := by
    exact foldl_record_no_evict dupDemoOthers ⟨[dupDemoPos], [dupDemoPos, dupDemoPos]⟩
      (by simp only [List.length_cons, List.length_nil, f1, MAX_TRAIL_SIZE]; omega)
      f2
      (by
        intro x hx
        simp only [List.mem_singleton]
        intro h0
        exact f3 (h0 ▸ hx))
  have hgt : MAX_TRAIL_SIZE <
      (⟨dupDemoOthers.reverse ++ [dupDemoPos],
        [dupDemoPos, dupDemoPos] ++ dupDemoOthers⟩ : TrailTracker).trailQueue.length + 1 := by
    simp only [List.length_append, List.length_cons, List.length_nil, f1,
      MAX_TRAIL_SIZE]
    omega
  have hins : trailInsert dupDemoLast (dupDemoOthers.reverse ++ [dupDemoPos])
      = dupDemoLast :: (dupDemoOthers.reverse ++ [dupDemoPos]) := by
    unfold trailInsert
    rw [if_neg hlastnotin]
  have hndl : (dupDemoLast :: (dupDemoOthers.reverse ++ [dupDemoPos])).Nodup := by
    rw [List.nodup_cons]
    refine ⟨hlastnotin, ?_⟩
    rw [List.nodup_append]
    refine ⟨by simpa using f2, List.nodup_singleton _, ?_⟩
    intro x hx
    simp only [List.mem_singleton]
    intro h0
    exact f3 (h0 ▸ List.mem_reverse.mp hx)
  have hfinal : List.foldl record emptyTrail dupDemoSeq =
      ⟨(dupDemoLast :: (dupDemoOthers.reverse ++ [dupDemoPos])).erase dupDemoPos,
        dupDemoPos :: (dupDemoOthers ++ [dupDemoLast])⟩ := by
    have e1 : record emptyTrail dupDemoPos = ⟨[dupDemoPos], [dupDemoPos]⟩ := by
      rw [record_of_le emptyTrail dupDemoPos (by decide)]
      simp [emptyTrail, trailInsert]
    have e2 : record ⟨[dupDemoPos], [dupDemoPos]⟩ dupDemoPos
        = ⟨[dupDemoPos], [dupDemoPos, dupDemoPos]⟩ := by
      rw [record_of_le _ _ (by decide)]
      simp [trailInsert]
    have s1 : List.foldl record emptyTrail dupDemoSeq
        = List.foldl record ⟨[dupDemoPos], [dupDemoPos, dupDemoPos]⟩
            (dupDemoOthers ++ [dupDemoLast]) := by
      rw [show dupDemoSeq
          = dupDemoPos :: dupDemoPos :: (dupDemoOthers ++ [dupDemoLast]) from rfl]
      rw [List.foldl_cons, e1, List.foldl_cons, e2]
    rw [s1, List.foldl_append, s3]
    simp only [List.foldl_cons, List.foldl_nil]
    rw [record_of_gt _ dupDemoLast hgt]
    show (⟨(trailInsert dupDemoLast (dupDemoOthers.reverse ++ [dupDemoPos])).erase
        (([dupDemoPos, dupDemoPos] ++ dupDemoOthers ++ [dupDemoLast]).headI),
        ([dupDemoPos, dupDemoPos] ++ dupDemoOthers ++ [dupDemoLast]).tail⟩ : TrailTracker)
      = _
    rw [hins]
    simp [List.append_assoc]
  constructor
  · intro ps
    exact (foldl_record_inv ps emptyTrail emptyTrail_inv).2.1
  · refine ⟨dupDemoSeq, dupDemoPos, ?_, ?_⟩
    · rw [hfinal]
      simp
    · rw [hfinal]
      show dupDemoPos ∉
        (dupDemoLast :: (dupDemoOthers.reverse ++ [dupDemoPos])).erase dupDemoPos
      intro hmem
      rw [hndl.mem_erase_iff] at hmem
      exact hmem.1 rfl

/-- Witness for C10's universally quantified part: one recorded
position, which is then both in the set and in the queue. -/
theorem trail_subset_queue_witness :
    ((0 : Int), (0 : Int)) ∈
      (List.foldl record emptyTrail [((0 : Int), (0 : Int))]).trailQueue :=
  trail_subset_queue_and_proper.1 [((0 : Int), (0 : Int))]
    ((0 : Int), (0 : Int)) (by decide)

end Cycles
